import Mathlib

/-!
Verification of the Argy command-line parser (src/include/argy.hpp) against its
natural-language specification.  The C++ header is shallowly embedded below:
each C++ member function of `Argy::CliParser` becomes a Lean definition of the
same name, C++ `std::string` operations are modelled on `List Char`,
`std::unordered_map` is modelled as an association list in insertion order
(iteration order of `unordered_map` is unspecified in C++; the embedding fixes
insertion order, and no theorem below depends on a particular order), and C++
exceptions become an explicit error type threaded through `Except`.

Machine floats are modelled as exact rationals: `std::stof` is embedded as a
parser returning the exact rational value of the accepted literal prefix, with
an out-of-range error when the magnitude exceeds `FLT_MAX` or, when nonzero,
falls below the smallest normal float `FLT_MIN` (glibc's `strtof` sets `ERANGE`
on underflow, observed behaviour of the toolchain the library targets).
Rounding of in-range literals to binary float values is not modelled; no claim
under study depends on it.

Validators (`Arg::validator`, `setValidator`, the validator factories) are not
modelled: no claim under study attaches a validator, and `parse` runs the
validator only when one is attached, so finalization below corresponds to the
source with `argument.validator == nullptr` everywhere.
-/

namespace Argy

/-- Model of `std::string` prefix test `startsWith` (argy.hpp line 1035), on
character lists. -/
def startsWithL : List Char → List Char → Bool
  | _, [] => true
  | [], _ :: _ => false
  | c :: cs, p :: ps => c = p && startsWithL cs ps

/-- Embeds `CliParser::startsWith(str, prefixStr)` (argy.hpp line 1035). -/
def startsWith (str pre : String) : Bool :=
  startsWithL str.data pre.data

/-- Length of a string, `std::string::size()`. -/
def strLen (s : String) : Nat := s.data.length

/-- Embeds `std::string::substr(n)`: drop the first `n` characters. -/
def substrFrom (s : String) (n : Nat) : String := ⟨s.data.drop n⟩

/-- Embeds `CliParser::normalizeName` (argy.hpp lines 1058-1062): strip one
leading `--` or `-`. -/
def normalizeName (name : String) : String :=
  if startsWith name "--" then substrFrom name 2
  else if startsWith name "-" then substrFrom name 1
  else name

/-- Whitespace recognised by `strtol`/`strtof` (C `isspace`, C locale). -/
def isSpaceC (c : Char) : Bool :=
  c = ' ' || c = '\t' || c = '\n' || c = Char.ofNat 11 || c = Char.ofNat 12 || c = '\r'

/-- ASCII decimal digit test. -/
def isDigitC (c : Char) : Bool :=
  '0' ≤ c && c ≤ '9'

/-- ASCII hexadecimal digit test. -/
def isHexDigitC (c : Char) : Bool :=
  isDigitC c || ('a' ≤ c && c ≤ 'f') || ('A' ≤ c && c ≤ 'F')

/-- Numeric value of a hex digit. -/
def hexDigitVal (c : Char) : Nat :=
  if isDigitC c then c.toNat - '0'.toNat
  else if 'a' ≤ c && c ≤ 'f' then c.toNat - 'a'.toNat + 10
  else c.toNat - 'A'.toNat + 10

/-- Value of a decimal digit string. -/
def decDigitsVal (ds : List Char) : Nat :=
  ds.foldl (fun a c => 10 * a + (c.toNat - '0'.toNat)) 0

/-- Value of a hexadecimal digit string. -/
def hexDigitsVal (ds : List Char) : Nat :=
  ds.foldl (fun a c => 16 * a + hexDigitVal c) 0

/-- Optional sign at the head of a numeric literal: returns (negative?, rest). -/
def splitSign : List Char → Bool × List Char
  | '-' :: r => (true, r)
  | '+' :: r => (false, r)
  | cs => (false, cs)

/-- Failure modes of the C++ string-to-number conversions: `std::invalid_argument`
and `std::out_of_range`. -/
inductive StrConvErr where
  | invalidArg
  | outOfRange
deriving DecidableEq, Repr

/-- Embeds `std::stoi`: skip leading whitespace, optional sign, at least one
decimal digit (`std::invalid_argument` otherwise); the digit string is read at
arbitrary precision and `std::out_of_range` is reported when the value leaves
`int`'s range `[-2^31, 2^31 - 1]` (as on the library's LP64 target, where
`strtol` or `stoi`'s own range check reports the overflow). -/
def stoi (s : String) : Except StrConvErr Int :=
  let cs := s.data.dropWhile isSpaceC
  let sr := splitSign cs
  let ds := sr.2.takeWhile isDigitC
  if ds.isEmpty then .error .invalidArg
  else
    let n : Int := (decDigitsVal ds : Nat)
    let v : Int := if sr.1 then -n else n
    if v < -(2 ^ 31) || v > 2 ^ 31 - 1 then .error .outOfRange else .ok v

/-- Result values of `std::stof`, with machine floats modelled exactly: a
finite value is kept as the exact rational the literal denotes. -/
inductive FloatVal where
  | finite (q : ℚ)
  | inf (neg : Bool)
  | nan
deriving DecidableEq, Repr

/-- Multiplication on `ℚ` through `mkRat` (the library's `Rat.mul` is
`irreducible`, which blocks kernel evaluation; `mkRat` normalizes the product
of the numerators over the product of the denominators to the same value). -/
def ratMul (a b : ℚ) : ℚ := mkRat (a.num * b.num) (a.den * b.den)

/-- Rational power with a natural exponent. -/
def ratPowNat (q : ℚ) : Nat → ℚ
  | 0 => mkRat 1 1
  | n + 1 => ratMul (ratPowNat q n) q

/-- Multiplicative inverse on `ℚ` through `mkRat`, the value of the library's
`Rat.inv` (with `ratInv 0 = 0`). -/
def ratInv (a : ℚ) : ℚ :=
  if a.num < 0 then mkRat (-(Int.ofNat a.den)) a.num.natAbs
  else mkRat (Int.ofNat a.den) a.num.natAbs

/-- Division on `ℚ` via `ratInv`, the value of the library's `Rat.div`. -/
def ratDiv (a b : ℚ) : ℚ := ratMul a (ratInv b)

/-- Negation on `ℚ` through `mkRat`. -/
def ratNeg (a : ℚ) : ℚ := mkRat (-a.num) a.den

/-- Scaling by `base ^ expo` for a signed exponent, via core `Rat` primitives. -/
def ratScale (q base : ℚ) (expo : Int) : ℚ :=
  if expo < 0 then ratDiv q (ratPowNat base (-expo).toNat)
  else ratMul q (ratPowNat base expo.toNat)

/-- Absolute value on `ℚ` via the sign of the normalized numerator. -/
def ratAbs (q : ℚ) : ℚ := if q.num < 0 then ratNeg q else q

/-- Largest finite `float`, `FLT_MAX` = (2 - 2⁻²³)·2¹²⁷ = 2¹²⁸ - 2¹⁰⁴, exactly. -/
def floatMax : ℚ := mkRat (Int.ofNat (2 ^ 128 - 2 ^ 104)) 1

/-- Smallest positive normal `float`, `FLT_MIN` = 2⁻¹²⁶, exactly. -/
def floatMinNormal : ℚ := mkRat 1 (2 ^ 126)

/-- Case-insensitive match of a lowercase pattern against the head of `cs`. -/
def matchCI : List Char → List Char → Bool
  | _, [] => true
  | [], _ :: _ => false
  | c :: cs, p :: ps => c.toLower = p && matchCI cs ps

/-- Range classification shared by the finite outcomes of `stof`: out of range
when the magnitude exceeds `FLT_MAX`, or underflows below `FLT_MIN` (glibc
reports `ERANGE` for subnormal and vanishing results; rounding at the exact
boundaries is not modelled). -/
def floatRangeCheck (q : ℚ) : Except StrConvErr FloatVal :=
  if q.num ≠ 0 && (Rat.blt floatMax (ratAbs q) || Rat.blt (ratAbs q) floatMinNormal) then
    .error .outOfRange
  else .ok (.finite q)

/-- Decimal significand and exponent of a float literal, after the sign:
digits, optional fraction, optional exponent (an `e` not followed by digits is
not consumed, as in `strtof`). Returns `none` when no digit is found. -/
def parseDecFloat (cs : List Char) : Option ℚ :=
  let ip := cs.takeWhile isDigitC
  let r1 := cs.dropWhile isDigitC
  let fp := match r1 with
    | '.' :: r2 => r2.takeWhile isDigitC
    | _ => []
  let r3 := match r1 with
    | '.' :: r2 => r2.dropWhile isDigitC
    | _ => r1
  if ip.isEmpty && fp.isEmpty then none
  else
    let mant : ℚ :=
      ratDiv (mkRat (Int.ofNat (decDigitsVal (ip ++ fp))) 1) (ratPowNat (mkRat 10 1) fp.length)
    let expo : Int := match r3 with
      | 'e' :: r4 => expDigits r4
      | 'E' :: r4 => expDigits r4
      | _ => 0
    some (ratScale mant (mkRat 10 1) expo)
where
  /-- Signed exponent digits after `e`/`E`; zero when no digit follows (the
  exponent marker is then not part of the accepted literal). -/
  expDigits (r : List Char) : Int :=
    let sr := splitSign r
    let eds := sr.2.takeWhile isDigitC
    if eds.isEmpty then 0
    else if sr.1 then -(Int.ofNat (decDigitsVal eds)) else Int.ofNat (decDigitsVal eds)

/-- Hexadecimal significand and binary exponent of a `0x` float literal (the
characters after `0x`/`0X`): hex digits, optional fraction, optional `p`
exponent. `none` when no hex digit is found (in which case `strtof` accepts
just the leading `0`). -/
def parseHexFloat (cs : List Char) : Option ℚ :=
  let ip := cs.takeWhile isHexDigitC
  let r1 := cs.dropWhile isHexDigitC
  let fp := match r1 with
    | '.' :: r2 => r2.takeWhile isHexDigitC
    | _ => []
  let r3 := match r1 with
    | '.' :: r2 => r2.dropWhile isHexDigitC
    | _ => r1
  if ip.isEmpty && fp.isEmpty then none
  else
    let mant : ℚ :=
      ratDiv (mkRat (Int.ofNat (hexDigitsVal (ip ++ fp))) 1) (ratPowNat (mkRat 16 1) fp.length)
    let expo : Int := match r3 with
      | 'p' :: r4 => parseDecFloat.expDigits r4
      | 'P' :: r4 => parseDecFloat.expDigits r4
      | _ => 0
    some (ratScale mant (mkRat 2 1) expo)

/-- Embeds `std::stof` (C-locale `strtof`): optional whitespace and sign, then
an `inf`/`nan` form, a hexadecimal literal, or a decimal literal; the longest
valid prefix is accepted and `std::invalid_argument` reported when no
conversion can be performed. Finite results pass `floatRangeCheck`. -/
def stof (s : String) : Except StrConvErr FloatVal :=
  let cs := s.data.dropWhile isSpaceC
  let sr := splitSign cs
  let neg := sr.1
  let body := sr.2
  if matchCI body ['i', 'n', 'f'] then .ok (.inf neg)
  else if matchCI body ['n', 'a', 'n'] then .ok .nan
  else
    match body with
    | '0' :: x :: rest =>
      if x.toLower = 'x' then
        match parseHexFloat rest with
        | some q => floatRangeCheck (if neg then ratNeg q else q)
        | none => floatRangeCheck (mkRat 0 1)  -- strtof accepts the lone "0" before the x
      else
        match parseDecFloat body with
        | some q => floatRangeCheck (if neg then ratNeg q else q)
        | none => .error .invalidArg
    | _ =>
      match parseDecFloat body with
      | some q => floatRangeCheck (if neg then ratNeg q else q)
      | none => .error .invalidArg

/-- Embeds `CliParser::isNegativeNumber` (argy.hpp lines 1040-1055): a leading
dash, more than one character, and `std::stof` accepts the remainder (both
`std::invalid_argument` and `std::out_of_range` make it return false). -/
def isNegativeNumber (str : String) : Bool :=
  if !startsWith str "-" || strLen str ≤ 1 then false
  else
    match stof (substrFrom str 1) with
    | .ok _ => true
    | .error _ => false

/-- Embeds `CliParser::Value` (argy.hpp lines 986-995): the variant over
`monostate`, string, int, float, bool and the four list types. -/
inductive Value where
  | none
  | str (s : String)
  | int (i : Int)
  | float (f : FloatVal)
  | bool (b : Bool)
  | strs (l : List String)
  | ints (l : List Int)
  | floats (l : List FloatVal)
  | bools (l : List Bool)
deriving DecidableEq, Repr

/-- Embeds `CliParser::ArgType` (argy.hpp lines 998-1007). -/
inductive ArgType where
  | String
  | Int
  | Float
  | Bool
  | StringList
  | IntList
  | FloatList
  | BoolList
deriving DecidableEq, Repr

/-- Embeds `CliParser::isListType` (argy.hpp lines 1129-1132). -/
def isListType : ArgType → Bool
  | .StringList => true
  | .IntList => true
  | .FloatList => true
  | .BoolList => true
  | _ => false

/-- Exceptions of the Argy library (argy.hpp lines 42-108), flattened to one
sum; each constructor carries the exception's message. `mapAtFailure` is not an
Argy exception: it models the `std::out_of_range` that `unordered_map::at`
would raise on a missing key, a case unreachable from states built by `add`. -/
inductive ArgyError where
  | reservedArgument (msg : String)
  | duplicateArgument (msg : String)
  | invalidArgument (msg : String)
  | unknownArgument (msg : String)
  | missingArgument (msg : String)
  | typeMismatch (msg : String)
  | unexpectedPositional (msg : String)
  | invalidValue (msg : String)
  | outOfRange (msg : String)
  | mapAtFailure
deriving DecidableEq, Repr

/-- Embeds `CliParser::Arg` (argy.hpp lines 1012-1023). The `validator` field
is omitted (see the file header): no claim under study attaches one. -/
structure Arg where
  names : List String
  shortForms : List String
  longForms : List String
  help : String
  required : Bool := true
  type : ArgType := .String
  defaultValue : Value := .none
  parsedValue : Value := .none
  positional : Bool := false
deriving DecidableEq, Repr

/-- Lookup in an association list, modelling `unordered_map::find`. -/
def alookup {α : Type} : List (String × α) → String → Option α
  | [], _ => Option.none
  | (k, v) :: rest, key => if k = key then some v else alookup rest key

/-- Insert-or-assign in an association list, modelling `unordered_map`'s
`operator[] =`: replaces the value of an existing key in place, otherwise
appends the new binding. -/
def aupsert {α : Type} : List (String × α) → String → α → List (String × α)
  | [], key, v => [(key, v)]
  | (k, w) :: rest, key, v =>
    if k = key then (k, v) :: rest else (k, w) :: aupsert rest key v

/-- Embeds the state of `CliParser` (argy.hpp lines 1027-1032) that the claims
touch: the name-lookup table, the argument map and the positional order.
`argc`/`argv`, the help handler and the color flag are passed to `parse`
explicitly or abstracted into the parse outcome. -/
structure CliParser where
  nameLookup : List (String × String)
  arguments : List (String × Arg)
  positionalOrder : List String
deriving DecidableEq, Repr

/-- Freshly constructed parser: empty registry. -/
def emptyCli : CliParser := ⟨[], [], []⟩

/-- Result of the name-classification loop of `CliParser::add` (argy.hpp lines
453-471). -/
structure ClassifiedNames where
  cleanNames : List String
  shortNames : List String
  longNames : List String
  isPositional : Bool
deriving DecidableEq, Repr

/-- Embeds the first loop of `CliParser::add` (argy.hpp lines 456-471):
classify each name as long form (leading `--`), short form (leading `-`) or
undashed (kept as long form, argument positional only if every name is
undashed); empty names after dash stripping raise `InvalidArgumentException`
at the offending name, exactly as the C++ loop throws mid-iteration. -/
def classifyNames : List String → Except ArgyError ClassifiedNames
  | [] => .ok ⟨[], [], [], true⟩
  | n :: rest =>
    if startsWith n "--" then
      if strLen n ≤ 2 then .error (.invalidArgument "longName must not be empty after --")
      else
        match classifyNames rest with
        | .error e => .error e
        | .ok r =>
          .ok ⟨normalizeName n :: r.cleanNames, r.shortNames, substrFrom n 2 :: r.longNames, false⟩
    else if startsWith n "-" then
      if strLen n ≤ 1 then .error (.invalidArgument "shortName must not be empty after -")
      else
        match classifyNames rest with
        | .error e => .error e
        | .ok r =>
          .ok ⟨normalizeName n :: r.cleanNames, substrFrom n 1 :: r.shortNames, r.longNames, false⟩
    else
      match classifyNames rest with
      | .error e => .error e
      | .ok r => .ok ⟨normalizeName n :: r.cleanNames, r.shortNames, n :: r.longNames, r.isPositional⟩

/-- Embeds the duplicate scan of `CliParser::add` (argy.hpp lines 482-488):
find the first registered name among the existing arguments that also occurs
in the candidate clean names. -/
def findDupName : List (String × Arg) → List String → Option String
  | [], _ => Option.none
  | kv :: rest, cleanNames =>
    match kv.2.names.find? (fun existing => cleanNames.contains existing) with
    | some x => some x
    | Option.none => findDupName rest cleanNames

/-- Embeds `CliParser::add` (argy.hpp lines 452-515). `ty` stands for the
template argument `T` (as `deduceArgType<T>()`), and `defaultValue` for the
`std::optional<T>` default, its payload injected into `Value`; by the C++
types the payload always matches `ty`. Checks run in source order: name
classification, reserved names, duplicates; then the argument and all its
lookup forms are registered. -/
def add (p : CliParser) (ty : ArgType) (names : List String) (help : String)
    (defaultValue : Option Value) : Except ArgyError CliParser :=
  match classifyNames names with
  | .error e => .error e
  | .ok c =>
    if c.longNames.any (· = "help") then
      .error (.reservedArgument "Cannot redefine built-in --help argument")
    else if c.shortNames.any (· = "h") then
      .error (.reservedArgument "Cannot redefine built-in -h argument")
    else
      match findDupName p.arguments c.cleanNames with
      | some cand => .error (.duplicateArgument ("Duplicate argument name: " ++ cand))
      | Option.none =>
        let val := match defaultValue with
          | some v => v
          | Option.none => Value.none
        let isRequired := if ty = .Bool then false else defaultValue.isNone
        let key := c.cleanNames.headD ""
        let arg : Arg :=
          { names := c.cleanNames, shortForms := c.shortNames, longForms := c.longNames,
            help := help, required := isRequired, type := ty,
            defaultValue := val, parsedValue := Value.none, positional := c.isPositional }
        let lk := c.cleanNames.foldl (fun m cn => aupsert m cn key) p.nameLookup
        let lk := c.longNames.foldl (fun m ln => aupsert (aupsert m ln key) ("--" ++ ln) key) lk
        let lk := c.shortNames.foldl (fun m sn => aupsert (aupsert m sn key) ("-" ++ sn) key) lk
        .ok { nameLookup := lk,
              arguments := aupsert p.arguments key arg,
              positionalOrder :=
                if c.isPositional then p.positionalOrder ++ [key] else p.positionalOrder }

/-- State of the token loop of `CliParser::parse` (argy.hpp lines 590-591):
the mutable argument map, the pending option key `currentKey` (empty string
when no option awaits a value) and the positional cursor. -/
structure LoopState where
  arguments : List (String × Arg)
  currentKey : String
  positionalIndex : Nat
deriving DecidableEq, Repr

/-- Match predicate of the long-option `find_if` (argy.hpp lines 600-604):
the stripped key, or its re-dashed form, occurs among an argument's names. -/
def namesMatchLong (normKey : String) (names : List String) : Bool :=
  names.contains normKey || names.contains ("--" ++ normKey)

/-- Match predicate of the short-option `find_if` (argy.hpp lines 620-624). -/
def namesMatchShort (normKey : String) (names : List String) : Bool :=
  names.contains normKey || names.contains ("-" ++ normKey)

/-- Model of `std::find_if` over `m_arguments`: first entry, in insertion
order, whose names satisfy the predicate. C++ iterates an `unordered_map` in
unspecified order; after duplicate checking at most one entry matches, so the
choice of order is immaterial for registries built by `add`. -/
def findEntry : List (String × Arg) → (List String → Bool) → Option (String × Arg)
  | [], _ => Option.none
  | kv :: rest, pred => if pred kv.2.names then some kv else findEntry rest pred

/-- Embeds the value/positional branches of the token loop (argy.hpp lines
637-656): a token that is not recognised as an option is consumed by the
pending option (appended for list types, assigned and pending cleared for
scalars), or assigned to the next positional slot, raising
`UnexpectedPositionalArgumentException` when the positional order is
exhausted. -/
def handleValueToken (positionalOrder : List String) (st : LoopState) (token : String) :
    Except ArgyError LoopState :=
  if st.currentKey ≠ "" then
    match alookup st.arguments st.currentKey with
    | Option.none => .error .mapAtFailure
    | some arg =>
      if isListType arg.type then
        match arg.parsedValue with
        | .strs l =>
          .ok { st with arguments :=
                  aupsert st.arguments st.currentKey { arg with parsedValue := .strs (l ++ [token]) } }
        | _ => .ok st  -- C++ pushes only when the accumulator already holds vector<string>
      else
        .ok { st with
                arguments := aupsert st.arguments st.currentKey { arg with parsedValue := .str token },
                currentKey := "" }
  else
    if h : st.positionalIndex < positionalOrder.length then
      let name := positionalOrder.get ⟨st.positionalIndex, h⟩
      match alookup st.arguments name with
      | Option.none => .error .mapAtFailure
      | some arg =>
        .ok { st with
                arguments := aupsert st.arguments name { arg with parsedValue := .str token },
                positionalIndex := st.positionalIndex + 1 }
    else .error (.unexpectedPositional ("Unexpected positional argument: " ++ token))

/-- Embeds one iteration of the token loop of `CliParser::parse` (argy.hpp
lines 594-657): long options, then short options (unless the token is a
negative number), then value/positional handling. -/
def processToken (positionalOrder : List String) (st : LoopState) (token : String) :
    Except ArgyError LoopState :=
  if startsWith token "--" then
    let normKey := substrFrom token 2
    match findEntry st.arguments (namesMatchLong normKey) with
    | Option.none => .error (.unknownArgument ("Unknown argument: --" ++ normKey))
    | some (key, arg) =>
      if isListType arg.type then
        .ok { st with arguments := aupsert st.arguments key { arg with parsedValue := .strs [] },
                      currentKey := key }
      else if arg.type = .Bool then
        .ok { st with arguments := aupsert st.arguments key { arg with parsedValue := .bool true },
                      currentKey := "" }
      else
        .ok { st with currentKey := key }
  else if startsWith token "-" && strLen token > 1 && !isNegativeNumber token then
    let normKey := substrFrom token 1
    match findEntry st.arguments (namesMatchShort normKey) with
    | Option.none => .error (.unknownArgument ("Unknown short argument: -" ++ normKey))
    | some (key, arg) =>
      if isListType arg.type then
        .ok { st with arguments := aupsert st.arguments key { arg with parsedValue := .strs [] },
                      currentKey := key }
      else if arg.type = .Bool then
        .ok { st with arguments := aupsert st.arguments key { arg with parsedValue := .bool true },
                      currentKey := "" }
      else
        .ok { st with currentKey := key }
  else
    handleValueToken positionalOrder st token

/-- The full token loop: left-to-right, single pass, first error wins. -/
def parseLoop (positionalOrder : List String) (st : LoopState) :
    List String → Except ArgyError LoopState
  | [] => .ok st
  | t :: ts =>
    match processToken positionalOrder st t with
    | .error e => .error e
    | .ok st' => parseLoop positionalOrder st' ts

/-- Element-wise conversion of a list accumulator, modelling the `for` loops of
the list coercion (argy.hpp lines 705-716): the first element failure aborts
with that element's error. -/
def convList {α : Type} (f : String → Except StrConvErr α) :
    List String → Except StrConvErr (List α)
  | [] => .ok []
  | v :: vs =>
    match f v with
    | .error e => .error e
    | .ok x =>
      match convList f vs with
      | .error e => .error e
      | .ok xs => .ok (x :: xs)

/-- Display name used in the finalization error messages (argy.hpp line 663):
the first registered name, or the canonical key when names are empty. -/
def displayName (key : String) (a : Arg) : String :=
  a.names.headD key

/-- Embeds the end-of-pass type coercion of `CliParser::parse` (argy.hpp lines
671-736), the conversion switches run when the entry is not absent.  Scalar
text (lines 673-698): integers by `std::stoi`, floats by `std::stof`, booleans
by comparison with `"true"`/`"1"`, strings kept; `std::invalid_argument` maps
to `InvalidValueException` and `std::out_of_range` to `OutOfRangeException`.
List accumulators (lines 700-735): element-wise conversion, where both
`std::invalid_argument` and `std::out_of_range` map to
`InvalidValueException`.  A value that is not raw text of the entry's shape is
left unchanged, as neither C++ conversion `if` fires.  The C++ messages'
trailing `e.what()` text is not reproduced. -/
def coerceValue (dn : String) (ty : ArgType) (v : Value) : Except ArgyError Value :=
  match ty, v with
  | .Int, .str val =>
    match stoi val with
    | .ok i => .ok (.int i)
    | .error .invalidArg =>
      .error (.invalidValue ("Invalid value for argument '" ++ dn ++ "': " ++ val))
    | .error .outOfRange =>
      .error (.outOfRange ("Value out of range for argument '" ++ dn ++ "': " ++ val))
  | .Float, .str val =>
    match stof val with
    | .ok f => .ok (.float f)
    | .error .invalidArg =>
      .error (.invalidValue ("Invalid value for argument '" ++ dn ++ "': " ++ val))
    | .error .outOfRange =>
      .error (.outOfRange ("Value out of range for argument '" ++ dn ++ "': " ++ val))
  | .Bool, .str val => .ok (.bool (val == "true" || val == "1"))
  | .IntList, .strs vec =>
    match convList stoi vec with
    | .ok out => .ok (.ints out)
    | .error .invalidArg =>
      .error (.invalidValue ("Invalid value in list for argument '" ++ dn ++ "'"))
    | .error .outOfRange =>
      .error (.invalidValue ("Value out of range in list for argument '" ++ dn ++ "'"))
  | .FloatList, .strs vec =>
    match convList stof vec with
    | .ok out => .ok (.floats out)
    | .error .invalidArg =>
      .error (.invalidValue ("Invalid value in list for argument '" ++ dn ++ "'"))
    | .error .outOfRange =>
      .error (.invalidValue ("Value out of range in list for argument '" ++ dn ++ "'"))
  | .BoolList, .strs vec => .ok (.bools (vec.map fun v => v == "true" || v == "1"))
  | _, w => .ok w

/-- Embeds the end-of-pass finalization for one entry (argy.hpp lines 660-742):
default substitution or `MissingArgumentException` for absent entries, then
type coercion of raw text through `coerceValue`. -/
def finalizeArg (key : String) (a : Arg) : Except ArgyError Arg :=
  if !isListType a.type && a.parsedValue = Value.none then
    if a.required then
      .error (.missingArgument ("Missing required argument: " ++ displayName key a))
    else .ok { a with parsedValue := a.defaultValue }
  else if isListType a.type && a.parsedValue = Value.none then
    if a.required then
      .error (.missingArgument ("Missing required list argument: " ++ displayName key a))
    else .ok { a with parsedValue := a.defaultValue }
  else
    match coerceValue (displayName key a) a.type a.parsedValue with
    | .ok v => .ok { a with parsedValue := v }
    | .error e => .error e

/-- Embeds the finalization loop over all entries (argy.hpp lines 660-742),
in insertion order (C++ iterates the `unordered_map` in unspecified order;
no claim depends on which of several failing entries reports first). -/
def finalizeAll : List (String × Arg) → Except ArgyError (List (String × Arg))
  | [] => .ok []
  | (k, a) :: rest =>
    match finalizeArg k a with
    | .error e => .error e
    | .ok a' =>
      match finalizeAll rest with
      | .error e => .error e
      | .ok rest' => .ok ((k, a') :: rest')

/-- Outcome of `CliParser::parse` (argy.hpp lines 578-743): normal completion
mutating the registry, early return through the help handler, or an exception. -/
inductive ParseOutcome where
  | success (p : CliParser)
  | helpInvoked
  | failure (e : ArgyError)
deriving DecidableEq, Repr

/-- Embeds `CliParser::parse` (argy.hpp lines 578-743) on the token list
`argv[1..argc-1]`: help pre-scan, token loop from an empty pending state, then
finalization. -/
def parse (p : CliParser) (argv : List String) : ParseOutcome :=
  if argv.any fun a => a = "--help" || a = "-h" then .helpInvoked
  else
    match parseLoop p.positionalOrder ⟨p.arguments, "", 0⟩ argv with
    | .error e => .failure e
    | .ok st =>
      match finalizeAll st.arguments with
      | .error e => .failure e
      | .ok args' => .success { p with arguments := args' }

/-- The template argument `T` of `CliParser::get<T>` (argy.hpp lines 751-786),
restricted to the eight supported instantiations. -/
inductive ReqTy where
  | rString
  | rInt
  | rFloat
  | rBool
  | rStrings
  | rInts
  | rFloats
  | rBools
deriving DecidableEq, Repr

/-- Embeds `std::holds_alternative<T>(value)` for each supported `T`. -/
def holdsReq : Value → ReqTy → Bool
  | .str _, .rString => true
  | .int _, .rInt => true
  | .float _, .rFloat => true
  | .bool _, .rBool => true
  | .strs _, .rStrings => true
  | .ints _, .rInts => true
  | .floats _, .rFloats => true
  | .bools _, .rBools => true
  | _, _ => false

/-- Embeds the `is_vector<T>` trait (argy.hpp lines 1118-1124) on `ReqTy`. -/
def isVectorReq : ReqTy → Bool
  | .rStrings => true
  | .rInts => true
  | .rFloats => true
  | .rBools => true
  | _ => false

/-- The request type whose `std::get<T>` succeeds on an entry of the given
declared tag: `deduceArgType` read backwards. -/
def reqOfTag : ArgType → ReqTy
  | .String => .rString
  | .Int => .rInt
  | .Float => .rFloat
  | .Bool => .rBool
  | .StringList => .rStrings
  | .IntList => .rInts
  | .FloatList => .rFloats
  | .BoolList => .rBools

/-- Embeds `CliParser::get<T>` (argy.hpp lines 751-786). The C++ function
returns the `T` payload; the embedding returns the `Value` wrapping it (on the
`ok` path the result always satisfies `holdsReq · ty`). The C++ message's
`typeid(T).name()` suffix is not reproduced. -/
def get (p : CliParser) (ty : ReqTy) (name : String) : Except ArgyError Value :=
  match alookup p.nameLookup (normalizeName name) with
  | Option.none => .error (.unknownArgument ("Argument not found: " ++ name))
  | some key =>
    match alookup p.arguments key with
    | Option.none => .error .mapAtFailure
    | some arg =>
      if ty = .rBool then
        match arg.parsedValue with
        | .bool b => .ok (.bool b)
        | _ => .ok (.bool false)
      else if isVectorReq ty then
        if holdsReq arg.parsedValue ty then .ok arg.parsedValue
        else if arg.defaultValue ≠ Value.none && holdsReq arg.defaultValue ty then
          .ok arg.defaultValue
        else
          .error (.typeMismatch ("Type mismatch: argument '" ++ name ++ "' is not of expected type."))
      else
        if arg.parsedValue = Value.none then
          if arg.defaultValue ≠ Value.none && holdsReq arg.defaultValue ty then
            .ok arg.defaultValue
          else .error (.missingArgument ("Missing required argument: " ++ name))
        else if holdsReq arg.parsedValue ty then .ok arg.parsedValue
        else
          .error (.typeMismatch ("Type mismatch: argument '" ++ name ++ "' is not of expected type."))

/-- Embeds `CliParser::has` (argy.hpp lines 791-797): present name whose
canonical entry's parsed value is not `monostate`. The inner `at` cannot miss
for tables built by `add`; that case is rendered as `false`. -/
def has (p : CliParser) (name : String) : Bool :=
  match alookup p.nameLookup (normalizeName name) with
  | Option.none => false
  | some key =>
    match alookup p.arguments key with
    | Option.none => false
    | some arg => arg.parsedValue ≠ Value.none

/-- Projection of the parse outcome used in concrete scenarios: the `get`
result on the success path. -/
def getResult (o : ParseOutcome) (ty : ReqTy) (name : String) :
    Option (Except ArgyError Value) :=
  match o with
  | .success p => some (get p ty name)
  | _ => Option.none

/-- Projection of the parse outcome used in concrete scenarios: the `has`
result on the success path. -/
def hasResult (o : ParseOutcome) (name : String) : Option Bool :=
  match o with
  | .success p => some (has p name)
  | _ => Option.none

/-- Success-path extractor for concrete scenarios. -/
def extractSuccess (o : ParseOutcome) : CliParser :=
  match o with
  | .success p => p
  | _ => emptyCli

/-! Registry invariants and preservation lemmas.  The declaration data of an
entry (key, names, type, default value, required flag) is written only by
`add`; the token loop rewrites `parsedValue` alone.  `declProj` extracts the
declaration data, and the lemmas below show the loop preserves it. -/

/-- Declaration data of the argument map: everything except `parsedValue`,
`help`, the dash-form lists and the positional flag. -/
def declProj (args : List (String × Arg)) :
    List (String × List String × ArgType × Value × Bool) :=
  args.map fun kv => (kv.1, kv.2.names, kv.2.type, kv.2.defaultValue, kv.2.required)

/-- Keys of the argument map are pairwise distinct, as in any `unordered_map`. -/
def keysNodup (args : List (String × Arg)) : Prop :=
  (args.map Prod.fst).Nodup

instance (args : List (String × Arg)) : Decidable (keysNodup args) := by
  unfold keysNodup; infer_instance

theorem alookup_aupsert_self {α : Type} (l : List (String × α)) (k : String) (v : α) :
    alookup (aupsert l k v) k = some v := by
  induction l with
  | nil => simp [aupsert, alookup]
  | cons hd tl ih =>
    by_cases h : hd.1 = k
    · simp [aupsert, alookup, h]
    · simpa [aupsert, alookup, h] using ih

theorem declProj_aupsert (args : List (String × Arg)) (k : String) (a a' : Arg)
    (h : alookup args k = some a)
    (hn : a'.names = a.names) (ht : a'.type = a.type)
    (hd : a'.defaultValue = a.defaultValue) (hr : a'.required = a.required) :
    declProj (aupsert args k a') = declProj args := by
  induction args with
  | nil => simp [alookup] at h
  | cons hd tl ih =>
    by_cases hk : hd.1 = k
    · simp only [alookup, hk, if_pos rfl] at h
      cases h
      simp [aupsert, hk, declProj, hn, ht, hd, hr]
    · simp only [alookup, hk, if_neg hk] at h
      simp [aupsert, hk, declProj] at ih ⊢
      exact ih h

theorem keys_of_declProj {args1 args2 : List (String × Arg)}
    (h : declProj args1 = declProj args2) :
    args1.map Prod.fst = args2.map Prod.fst := by
  have h1 : (declProj args1).map (fun t => t.1) = (declProj args2).map (fun t => t.1) := by
    rw [h]
  simpa [declProj, List.map_map, Function.comp] using h1

theorem keysNodup_of_declProj {args1 args2 : List (String × Arg)}
    (h : declProj args1 = declProj args2) (hn : keysNodup args2) :
    keysNodup args1 := by
  unfold keysNodup at *
  rw [keys_of_declProj h]
  exact hn

theorem findEntry_alookup {args : List (String × Arg)} {pred : List String → Bool}
    {k : String} {a : Arg} (hn : keysNodup args)
    (h : findEntry args pred = some (k, a)) :
    alookup args k = some a := by
  induction args with
  | nil => simp [findEntry] at h
  | cons hd tl ih =>
    unfold keysNodup at hn
    simp only [List.map_cons, List.nodup_cons] at hn
    by_cases hp : pred hd.2.names
    · simp only [findEntry, if_pos hp] at h
      cases h
      simp [alookup]
    · simp only [findEntry, if_neg hp] at h
      have hmem : (k, a) ∈ tl := by
        clear ih hn
        induction tl with
        | nil => simp [findEntry] at h
        | cons hd2 tl2 ih2 =>
          by_cases hp2 : pred hd2.2.names
          · simp only [findEntry, if_pos hp2] at h
            cases h
            exact List.mem_cons_self _ _
          · simp only [findEntry, if_neg hp2] at h
            exact List.mem_cons_of_mem _ (ih2 h)
      have hk : k ∈ tl.map Prod.fst := List.mem_map.mpr ⟨(k, a), hmem, rfl⟩
      have hne : hd.1 ≠ k := by
        intro he
        exact hn.1 (he ▸ hk)
      simp only [alookup, if_neg hne]
      exact ih hn.2 h

theorem findEntry_declProj (pred : List String → Bool) {args1 args2 : List (String × Arg)}
    (h : declProj args1 = declProj args2) :
    Option.map (fun kv => (kv.1, kv.2.names, kv.2.type)) (findEntry args1 pred)
      = Option.map (fun kv => (kv.1, kv.2.names, kv.2.type)) (findEntry args2 pred) := by
  induction args1 generalizing args2 with
  | nil =>
    cases args2 with
    | nil => rfl
    | cons hd tl => simp [declProj] at h
  | cons hd tl ih =>
    cases args2 with
    | nil => simp [declProj] at h
    | cons hd2 tl2 =>
      simp only [declProj, List.map_cons, List.cons.injEq, Prod.mk.injEq] at h
      obtain ⟨⟨h1, h2, h3, _, _⟩, htl⟩ := h
      by_cases hp : pred hd.2.names
      · have hp2 : pred hd2.2.names := by
          rw [← h2]; exact hp

        simp [findEntry, if_pos hp, if_pos hp2, h1, h2, h3]
      · have hp2 : ¬ pred hd2.2.names := by
          rw [← h2]; exact hp
        simp only [findEntry, if_neg hp, if_neg hp2]
        exact ih htl

theorem alookup_declProj {args1 args2 : List (String × Arg)} {key : String} {a : Arg}
    (h : declProj args1 = declProj args2)
    (ha : alookup args2 key = some a) :
    ∃ a', alookup args1 key = some a' ∧ a'.names = a.names ∧ a'.type = a.type ∧
      a'.defaultValue = a.defaultValue ∧ a'.required = a.required := by
  induction args1 generalizing args2 with
  | nil =>
    cases args2 with
    | nil => simp [alookup] at ha
    | cons hd tl => simp [declProj] at h
  | cons hd tl ih =>
    cases args2 with
    | nil => simp [declProj] at h
    | cons hd2 tl2 =>
      simp only [declProj, List.map_cons, List.cons.injEq, Prod.mk.injEq] at h
      obtain ⟨⟨h1, h2, h3, h4, h5⟩, htl⟩ := h
      by_cases hk : hd2.1 = key
      · simp only [alookup, if_pos hk] at ha
        cases ha
        refine ⟨hd.2, ?_, h2, h3, h4, h5⟩
        have : hd.1 = key := h1 ▸ hk
        simp [alookup, this]
      · simp only [alookup, if_neg hk] at ha
        have hk1 : hd.1 ≠ key := by
          rw [h1]; exact hk
        simp only [alookup, if_neg hk1]
        exact ih htl ha

theorem declProj_handleValueToken {po : List String} {st st' : LoopState} {tok : String}
    (h : handleValueToken po st tok = .ok st') :
    declProj st'.arguments = declProj st.arguments := by
  unfold handleValueToken at h
  by_cases hck : st.currentKey ≠ ""
  · simp only [if_pos hck] at h
    cases halk : alookup st.arguments st.currentKey with
    | none => rw [halk] at h; cases h
    | some arg =>
      rw [halk] at h
      by_cases hl : isListType arg.type
      · simp only [hl, if_pos] at h
        cases hpv : arg.parsedValue <;> rw [hpv] at h <;> cases h <;>
          first
            | rfl
            | exact declProj_aupsert _ _ _ _ halk rfl rfl rfl rfl
      · simp only [hl, Bool.false_eq_true, if_false] at h
        cases h
        exact declProj_aupsert _ _ _ _ halk rfl rfl rfl rfl
  · simp only [if_neg hck] at h
    split at h
    · cases halk : alookup st.arguments (po.get _) with
      | none => rw [halk] at h; cases h
      | some arg =>
        rw [halk] at h
        cases h
        exact declProj_aupsert _ _ _ _ halk rfl rfl rfl rfl
    · cases h

theorem declProj_processToken {po : List String} {st st' : LoopState} {tok : String}
    (hn : keysNodup st.arguments)
    (h : processToken po st tok = .ok st') :
    declProj st'.arguments = declProj st.arguments := by
  unfold processToken at h
  by_cases h2 : startsWith tok "--"
  · simp only [h2, if_pos] at h
    cases hf : findEntry st.arguments (namesMatchLong (substrFrom tok 2)) with
    | none => rw [hf] at h; cases h
    | some kv =>
      obtain ⟨key, arg⟩ := kv
      rw [hf] at h
      have halk := findEntry_alookup hn hf
      by_cases hl : isListType arg.type
      · simp only [hl, if_pos] at h
        cases h
        exact declProj_aupsert _ _ _ _ halk rfl rfl rfl rfl
      · simp only [hl, Bool.false_eq_true, if_false] at h
        by_cases hb : arg.type = .Bool
        · rw [if_pos hb] at h
          cases h
          exact declProj_aupsert _ _ _ _ halk rfl rfl rfl rfl
        · rw [if_neg hb] at h
          cases h
          rfl
  · simp only [h2, Bool.false_eq_true, if_false] at h
    by_cases h3 : (startsWith tok "-" && decide (strLen tok > 1) && !isNegativeNumber tok) = true
    · simp only [h3, if_pos] at h
      cases hf : findEntry st.arguments (namesMatchShort (substrFrom tok 1)) with
      | none => rw [hf] at h; cases h
      | some kv =>
        obtain ⟨key, arg⟩ := kv
        rw [hf] at h
        have halk := findEntry_alookup hn hf
        by_cases hl : isListType arg.type
        · simp only [hl, if_pos] at h
          cases h
          exact declProj_aupsert _ _ _ _ halk rfl rfl rfl rfl
        · simp only [hl, Bool.false_eq_true, if_false] at h
          by_cases hb : arg.type = .Bool
          · rw [if_pos hb] at h
            cases h
            exact declProj_aupsert _ _ _ _ halk rfl rfl rfl rfl
          · rw [if_neg hb] at h
            cases h
            rfl
    · simp only [h3, Bool.false_eq_true, if_false] at h
      exact declProj_handleValueToken h

theorem declProj_parseLoop {po : List String} {ts : List String} :
    ∀ {st st' : LoopState}, keysNodup st.arguments →
      parseLoop po st ts = .ok st' →
      declProj st'.arguments = declProj st.arguments := by
  induction ts with
  | nil =>
    intro st st' _ h
    cases h
    rfl
  | cons t ts ih =>
    intro st st' hn h
    unfold parseLoop at h
    cases hp : processToken po st t with
    | error e => rw [hp] at h; cases h
    | ok stm =>
      rw [hp] at h
      have h1 := declProj_processToken hn hp
      have hn2 : keysNodup stm.arguments := keysNodup_of_declProj h1 hn
      have h2 := ih hn2 h
      rw [h2, h1]

theorem parseLoop_append (po : List String) (st : LoopState) (xs ys : List String) :
    parseLoop po st (xs ++ ys) =
      match parseLoop po st xs with
      | .error e => .error e
      | .ok st' => parseLoop po st' ys := by
  induction xs generalizing st with
  | nil => simp [parseLoop]
  | cons x xs ih =>
    simp only [List.cons_append, parseLoop]
    cases processToken po st x with
    | error e => rfl
    | ok st' => exact ih st'

theorem finalizeAll_alookup {args args' : List (String × Arg)} {key : String} {a : Arg}
    (h : finalizeAll args = .ok args') (ha : alookup args key = some a) :
    ∃ a', alookup args' key = some a' ∧ finalizeArg key a = .ok a' := by
  induction args generalizing args' with
  | nil => simp [alookup] at ha
  | cons hd tl ih =>
    obtain ⟨k0, a0⟩ := hd
    unfold finalizeAll at h
    cases h0 : finalizeArg k0 a0 with
    | error e => rw [h0] at h; cases h
    | ok a0' =>
      rw [h0] at h
      cases hr : finalizeAll tl with
      | error e => rw [hr] at h; cases h
      | ok rest' =>
        rw [hr] at h
        cases h
        by_cases hk : k0 = key
        · subst hk
          simp only [alookup, if_pos rfl] at ha ⊢
          cases ha
          exact ⟨a0', rfl, h0⟩
        · simp only [alookup, if_neg hk] at ha ⊢
          exact ih hr ha

theorem coerceValue_ok_shape {dn : String} {ty : ArgType} {v w : Value}
    (h : coerceValue dn ty v = .ok w) : w ≠ Value.none ∨ w = v := by
  cases ty <;> cases v <;>
    first
      | (right
         cases h
         rfl)
      | (left
         cases h
         simp)
      | (simp only [coerceValue] at h
         split at h <;> cases h <;> left <;> simp)

theorem finalizeArg_default_present {key : String} {a a' : Arg}
    (h : finalizeArg key a = .ok a') (hd : a.defaultValue ≠ Value.none) :
    a'.parsedValue ≠ Value.none := by
  unfold finalizeArg at h
  by_cases hpv : a.parsedValue = Value.none
  · by_cases hl : isListType a.type = true
    · have hc1 : (!isListType a.type && decide (a.parsedValue = Value.none)) = false := by
        simp [hl]
      rw [hc1] at h
      simp only [Bool.false_eq_true, if_false] at h
      have hc2 : (isListType a.type && decide (a.parsedValue = Value.none)) = true := by
        simp [hl, hpv]
      rw [hc2] at h
      simp only [if_pos] at h
      by_cases hr : a.required = true
      · rw [if_pos hr] at h
        cases h
      · rw [if_neg hr] at h
        cases h
        exact hd
    · have hlf : isListType a.type = false := by
        simpa using hl
      have hc1 : (!isListType a.type && decide (a.parsedValue = Value.none)) = true := by
        simp [hlf, hpv]
      rw [hc1] at h
      simp only [if_pos] at h
      by_cases hr : a.required = true
      · rw [if_pos hr] at h
        cases h
      · rw [if_neg hr] at h
        cases h
        exact hd
  · have hdec : decide (a.parsedValue = Value.none) = false := decide_eq_false hpv
    rw [hdec] at h
    simp only [Bool.and_false, Bool.false_eq_true, if_false] at h
    cases hc : coerceValue (displayName key a) a.type a.parsedValue with
    | error e => rw [hc] at h; cases h
    | ok w =>
      rw [hc] at h
      cases h
      rcases coerceValue_ok_shape hc with hw | hw
      · exact hw
      · rw [hw]
        exact hpv

instance {ε α : Type} [DecidableEq ε] [DecidableEq α] : DecidableEq (Except ε α)
  | .error e, .error f =>
    if h : e = f then .isTrue (by rw [h])
    else .isFalse (by intro hc; cases hc; exact h rfl)
  | .error _, .ok _ => .isFalse (by intro hc; cases hc)
  | .ok _, .error _ => .isFalse (by intro hc; cases hc)
  | .ok a, .ok b =>
    if h : a = b then .isTrue (by rw [h])
    else .isFalse (by intro hc; cases hc; exact h rfl)

theorem holdsReq_none (t : ReqTy) : holdsReq Value.none t = false := by
  cases t <;> rfl

theorem holdsReq_unique {v : Value} {t t' : ReqTy}
    (h : holdsReq v t = true) (h' : holdsReq v t' = true) : t = t' := by
  cases v <;> cases t <;> cases t' <;> simp_all [holdsReq]

theorem ne_none_of_holdsReq {v : Value} {t : ReqTy} (h : holdsReq v t = true) :
    v ≠ Value.none := by
  intro he
  rw [he, holdsReq_none] at h
  cases h

/-! Concrete registries used by the claim scenarios. -/

/-- Registry of the spec's running scenario: required positional string
`filename`, optional int option `-c`/`--count` with default `10`. -/
def fileCountParser : CliParser :=
  match (add emptyCli .String ["filename"] "Input file" Option.none).bind
      (fun p => add p .Int ["-c", "--count"] "Count" (some (.int 10))) with
  | .ok p => p
  | .error _ => emptyCli

/-- The running scenario parsed on input `["report.txt"]`. -/
def fileCountParsed : CliParser := extractSuccess (parse fileCountParser ["report.txt"])

/-- The state of the `--count` entry inside `fileCountParsed`. -/
def countArgParsed : Arg :=
  { names := ["c", "count"], shortForms := ["c"], longForms := ["count"], help := "Count",
    required := false, type := .Int, defaultValue := .int 10, parsedValue := .int 10,
    positional := false }

/-- The state of the `filename` entry inside `fileCountParsed`. -/
def filenameArgParsed : Arg :=
  { names := ["filename"], shortForms := [], longForms := ["filename"], help := "Input file",
    required := true, type := .String, defaultValue := Value.none,
    parsedValue := .str "report.txt", positional := true }

/-- Registry with a single required string option `--name`. -/
def nameStrParser : CliParser :=
  match add emptyCli .String ["--name"] "Name" Option.none with
  | .ok p => p
  | .error _ => emptyCli

/-- That registry parsed on `["--name", "hello"]`. -/
def nameStrParsed : CliParser := extractSuccess (parse nameStrParser ["--name", "hello"])

/-- Registry with a single positional bool `flag` (as `addBool("flag", ...)`,
whose default parameter is `false`). -/
def posBoolParser : CliParser :=
  match add emptyCli .Bool ["flag"] "A flag" (some (.bool false)) with
  | .ok p => p
  | .error _ => emptyCli

/-- Registry with a required int list option `--ids`. -/
def intListParser : CliParser :=
  match add emptyCli .IntList ["--ids"] "ids" Option.none with
  | .ok p => p
  | .error _ => emptyCli

/-- Registry with a required scalar int option `--num`. -/
def intScalarParser : CliParser :=
  match add emptyCli .Int ["--num"] "n" Option.none with
  | .ok p => p
  | .error _ => emptyCli

/-- Empty list value of each list type, the coercion image of an empty
accumulator. -/
def emptyListValue : ArgType → Value
  | .StringList => .strs []
  | .IntList => .ints []
  | .FloatList => .floats []
  | .BoolList => .bools []
  | _ => Value.none

/-- C1: for every declared scalar (non-list, non-bool) argument, `get<T>` with
the matching declared type `T` returns the parsed value when one is present,
otherwise the stored default when one is present, otherwise raises
`MissingArgument`; the lookup goes through the normalized form of the supplied
name, so any registered alias form (dashed or undashed) resolves to the same
canonical entry. -/
theorem c1_get_scalar_resolution (p : CliParser) (name key : String) (arg : Arg) (ty : ReqTy)
    (hl : alookup p.nameLookup (normalizeName name) = some key)
    (ha : alookup p.arguments key = some arg)
    (hs : arg.type = .String ∨ arg.type = .Int ∨ arg.type = .Float)
    (hty : ty = reqOfTag arg.type)
    (hpv : arg.parsedValue = Value.none ∨ holdsReq arg.parsedValue ty = true)
    (hdv : arg.defaultValue = Value.none ∨ holdsReq arg.defaultValue ty = true) :
    get p ty name =
      if arg.parsedValue ≠ Value.none then .ok arg.parsedValue
      else if arg.defaultValue ≠ Value.none then .ok arg.defaultValue
      else .error (.missingArgument ("Missing required argument: " ++ name)) := by
  have hnb : ty ≠ .rBool := by
    rcases hs with h | h | h <;> rw [hty, h] <;> simp [reqOfTag]
  have hnv : isVectorReq ty = false := by
    rcases hs with h | h | h <;> rw [hty, h] <;> rfl
  simp only [get, hl, ha, if_neg hnb, hnv, Bool.false_eq_true, if_false]
  rcases hpv with hpv | hpv
  · rcases hdv with hdv | hdv
    · simp [hpv, hdv]
    · have hne := ne_none_of_holdsReq hdv
      simp [hpv, hdv, hne]
  · have hne := ne_none_of_holdsReq hpv
    simp [hpv, hne]

/-- C1 witness: in the parsed running scenario, `--count` (absent from the
input) resolves through its dashed and undashed alias forms and yields the
default `10`, and `filename` yields the parsed `"report.txt"`. -/
theorem c1_witness :
    get fileCountParsed .rInt "--count" = .ok (.int 10) ∧
    get fileCountParsed .rInt "-c" = .ok (.int 10) ∧
    get fileCountParsed .rInt "count" = .ok (.int 10) ∧
    get fileCountParsed .rString "filename" = .ok (.str "report.txt") := by
  refine ⟨?_, ?_, ?_, ?_⟩
  · have h := c1_get_scalar_resolution fileCountParsed "--count" "c" countArgParsed .rInt
      (by decide) (by decide) (by right; left; rfl) (by decide) (by right; decide)
      (by right; decide)
    rw [h]
    decide
  · have h := c1_get_scalar_resolution fileCountParsed "-c" "c" countArgParsed .rInt
      (by decide) (by decide) (by right; left; rfl) (by decide) (by right; decide)
      (by right; decide)
    rw [h]
    decide
  · have h := c1_get_scalar_resolution fileCountParsed "count" "c" countArgParsed .rInt
      (by decide) (by decide) (by right; left; rfl) (by decide) (by right; decide)
      (by right; decide)
    rw [h]
    decide
  · have h := c1_get_scalar_resolution fileCountParsed "filename" "filename" filenameArgParsed
      .rString (by decide) (by decide) (by left; rfl) (by decide) (by right; decide)
      (by left; rfl)
    rw [h]
    decide

/-- C2 counterexample: `--name` is declared as a string and parsed the value
`"hello"`, yet `get<bool>` on it does not raise `TypeMismatch` — it silently
returns the default-constructed `false` (argy.hpp lines 757-763 run before any
tag check). -/
theorem c2_counterexample :
    (alookup nameStrParsed.arguments "name").map (fun a => a.type) = some .String ∧
    (alookup nameStrParsed.arguments "name").map (fun a => a.parsedValue) =
      some (.str "hello") ∧
    get nameStrParsed .rBool "--name" = .ok (.bool false) := by
  decide

/-- C2 (amended): for every accessor call `get<T>(name)` with `T ≠ bool` on an
entry whose parsed value is present and carries the entry's declared variant
tag, a `T` that disagrees with that tag raises `TypeMismatch` rather than
silently returning a converted or default-constructed value.  (`T = bool`
requested on an entry not holding a bool instead returns `false`, and an
absent entry reports `MissingArgument` — see the counterexample.) -/
theorem c2_amended_type_mismatch (p : CliParser) (name key : String) (arg : Arg) (ty : ReqTy)
    (hl : alookup p.nameLookup (normalizeName name) = some key)
    (ha : alookup p.arguments key = some arg)
    (hpv : holdsReq arg.parsedValue (reqOfTag arg.type) = true)
    (hdv : arg.defaultValue = Value.none ∨ holdsReq arg.defaultValue (reqOfTag arg.type) = true)
    (hne : ty ≠ reqOfTag arg.type)
    (hnb : ty ≠ .rBool) :
    get p ty name =
      .error (.typeMismatch ("Type mismatch: argument '" ++ name ++ "' is not of expected type.")) := by
  have hpf : holdsReq arg.parsedValue ty = false := by
    cases hh : holdsReq arg.parsedValue ty
    · rfl
    · exact absurd (holdsReq_unique hh hpv) hne
  have hpn : arg.parsedValue ≠ Value.none := ne_none_of_holdsReq hpv
  have hdf : holdsReq arg.defaultValue ty = false := by
    rcases hdv with hdv | hdv
    · rw [hdv]
      exact holdsReq_none ty
    · cases hh : holdsReq arg.defaultValue ty
      · rfl
      · exact absurd (holdsReq_unique hh hdv) hne
  simp only [get, hl, ha, if_neg hnb]
  by_cases hv : isVectorReq ty = true
  · simp [hv, hpf, hdf]
  · simp only [hv, Bool.false_eq_true, if_false]
    simp [hpn, hpf]

/-- C2 witness: requesting `int` on the parsed string entry `--name` raises
`TypeMismatch`. -/
theorem c2_witness :
    get nameStrParsed .rInt "--name" =
      .error (.typeMismatch ("Type mismatch: argument '" ++ "--name" ++ "' is not of expected type.")) := by
  exact c2_amended_type_mismatch nameStrParsed "--name" "name"
    { names := ["name"], shortForms := [], longForms := ["name"], help := "Name",
      required := true, type := .String, defaultValue := Value.none,
      parsedValue := .str "hello", positional := false }
    .rInt (by decide) (by decide) (by decide) (by left; rfl) (by decide) (by decide)

/-- C4 counterexample: a bool-typed positional fed the raw text `"banana"`
parses successfully and coerces to `false`; no `InvalidValue` is raised
(argy.hpp line 684 is a comparison, not a validating parse). -/
theorem c4_counterexample :
    getResult (parse posBoolParser ["banana"]) .rBool "flag" = some (.ok (.bool false)) := by
  decide

/-- C4 (amended): during end-of-pass coercion of a bool-typed argument's raw
text, `"true"` and `"1"` coerce to `true` and every other string — including
`"false"` and `"0"` — coerces to `false`; boolean coercion never raises
`InvalidValue`, for scalars and for list elements alike. -/
theorem c4_amended_bool_coercion (key : String) (a : Arg) (s : String) (l : List String) :
    (a.type = .Bool → a.parsedValue = .str s →
      finalizeArg key a = .ok { a with parsedValue := .bool (s == "true" || s == "1") }) ∧
    (a.type = .BoolList → a.parsedValue = .strs l →
      finalizeArg key a =
        .ok { a with parsedValue := .bools (l.map fun v => v == "true" || v == "1") }) := by
  constructor
  · intro ht hp
    unfold finalizeArg
    rw [hp]
    simp [coerceValue, ht]
  · intro ht hp
    unfold finalizeArg
    rw [hp]
    simp [coerceValue, ht]

/-- C4 witness: the scalar conjunct applied at the raw text `"banana"` and the
list conjunct at `["true", "0", "banana"]`. -/
theorem c4_witness :
    finalizeArg "flag"
      { names := ["flag"], shortForms := [], longForms := ["flag"], help := "",
        required := false, type := .Bool, defaultValue := .bool false,
        parsedValue := .str "banana", positional := true } =
      .ok { names := ["flag"], shortForms := [], longForms := ["flag"], help := "",
            required := false, type := .Bool, defaultValue := .bool false,
            parsedValue := .bool false, positional := true } ∧
    finalizeArg "flags"
      { names := ["flags"], shortForms := [], longForms := ["flags"], help := "",
        required := true, type := .BoolList, defaultValue := Value.none,
        parsedValue := .strs ["true", "0", "banana"], positional := false } =
      .ok { names := ["flags"], shortForms := [], longForms := ["flags"], help := "",
            required := true, type := .BoolList, defaultValue := Value.none,
            parsedValue := .bools [true, false, false], positional := false } := by
  constructor
  · have h := (c4_amended_bool_coercion "flag"
      { names := ["flag"], shortForms := [], longForms := ["flag"], help := "",
        required := false, type := .Bool, defaultValue := .bool false,
        parsedValue := .str "banana", positional := true } "banana" []).1 rfl rfl
    simpa using h
  · have h := (c4_amended_bool_coercion "flags"
      { names := ["flags"], shortForms := [], longForms := ["flags"], help := "",
        required := true, type := .BoolList, defaultValue := Value.none,
        parsedValue := .strs ["true", "0", "banana"], positional := false } ""
      ["true", "0", "banana"]).2 rfl rfl
    simpa using h

/-- C5 counterexample: the same overflowing literal `99999999999999` raises
`OutOfRangeException` for a scalar int option but `InvalidValueException` for
an int-list element (argy.hpp lines 696-698 versus 733-735): the error kinds
are not consistent between scalars and list elements. -/
theorem c5_counterexample :
    parse intScalarParser ["--num", "99999999999999"] =
      .failure (.outOfRange "Value out of range for argument 'num': 99999999999999") ∧
    parse intListParser ["--ids", "99999999999999"] =
      .failure (.invalidValue "Value out of range in list for argument 'ids'") := by
  decide

/-- C5 (amended): during end-of-pass coercion of integer- and float-typed
arguments, malformed text raises `InvalidValue` and numeric overflow raises
`OutOfRange` for scalars; for list elements both failures raise
`InvalidValue`, so the overflow kind differs between scalars and lists. -/
theorem c5_amended_numeric_errors (key : String) (a : Arg) (s : String) (vec : List String) :
    (a.type = .Int → a.parsedValue = .str s → stoi s = .error .invalidArg →
      finalizeArg key a =
        .error (.invalidValue ("Invalid value for argument '" ++ displayName key a ++ "': " ++ s))) ∧
    (a.type = .Int → a.parsedValue = .str s → stoi s = .error .outOfRange →
      finalizeArg key a =
        .error (.outOfRange ("Value out of range for argument '" ++ displayName key a ++ "': " ++ s))) ∧
    (a.type = .Float → a.parsedValue = .str s → stof s = .error .invalidArg →
      finalizeArg key a =
        .error (.invalidValue ("Invalid value for argument '" ++ displayName key a ++ "': " ++ s))) ∧
    (a.type = .Float → a.parsedValue = .str s → stof s = .error .outOfRange →
      finalizeArg key a =
        .error (.outOfRange ("Value out of range for argument '" ++ displayName key a ++ "': " ++ s))) ∧
    (a.type = .IntList → a.parsedValue = .strs vec → convList stoi vec = .error .invalidArg →
      finalizeArg key a =
        .error (.invalidValue ("Invalid value in list for argument '" ++ displayName key a ++ "'"))) ∧
    (a.type = .IntList → a.parsedValue = .strs vec → convList stoi vec = .error .outOfRange →
      finalizeArg key a =
        .error (.invalidValue ("Value out of range in list for argument '" ++ displayName key a ++ "'"))) ∧
    (a.type = .FloatList → a.parsedValue = .strs vec → convList stof vec = .error .invalidArg →
      finalizeArg key a =
        .error (.invalidValue ("Invalid value in list for argument '" ++ displayName key a ++ "'"))) ∧
    (a.type = .FloatList → a.parsedValue = .strs vec → convList stof vec = .error .outOfRange →
      finalizeArg key a =
        .error (.invalidValue ("Value out of range in list for argument '" ++ displayName key a ++ "'"))) := by
  refine ⟨?_, ?_, ?_, ?_, ?_, ?_, ?_, ?_⟩ <;> intro ht hp hconv <;> unfold finalizeArg <;>
    rw [hp] <;> simp [coerceValue, ht, hconv]

/-- C5 witness: the scalar-overflow conjunct applied to the literal
`99999999999999`, whose `stoi` reports `std::out_of_range`. -/
theorem c5_witness :
    stoi "99999999999999" = .error .outOfRange ∧
    finalizeArg "num"
      { names := ["num"], shortForms := [], longForms := ["num"], help := "",
        required := true, type := .Int, defaultValue := Value.none,
        parsedValue := .str "99999999999999", positional := false } =
      .error (.outOfRange ("Value out of range for argument '" ++ "num" ++ "': " ++ "99999999999999")) := by
  refine ⟨by decide, ?_⟩
  have h := (c5_amended_numeric_errors "num"
    { names := ["num"], shortForms := [], longForms := ["num"], help := "",
      required := true, type := .Int, defaultValue := Value.none,
      parsedValue := .str "99999999999999", positional := false } "99999999999999" []).2.1
    rfl rfl (by decide)
  simpa [displayName] using h

/-- C7 counterexample: the required int-list option `--ids`, mentioned on the
command line with zero accompanying values, parses successfully to the empty
list — no `MissingArgument` is raised, because the flag itself resets the
accumulator to an (empty) `vector<string>` (argy.hpp lines 608-611), which the
missing-check (lines 666-669) no longer sees as absent. -/
theorem c7_counterexample :
    (alookup intListParser.arguments "ids").map (fun a => a.required) = some true ∧
    getResult (parse intListParser ["--ids"]) .rInts "ids" = some (.ok (.ints [])) := by
  decide

/-- C7 (amended): a list-typed argument never mentioned on the command line
raises `MissingArgument` when required and receives its stored default (the
empty list, when the default is empty) when optional; a list-typed argument
mentioned with zero accompanying values yields the empty list even when
required. -/
theorem c7_amended_empty_list (key : String) (a : Arg) :
    (isListType a.type = true → a.parsedValue = Value.none → a.required = true →
      finalizeArg key a =
        .error (.missingArgument ("Missing required list argument: " ++ displayName key a))) ∧
    (isListType a.type = true → a.parsedValue = Value.none → a.required = false →
      finalizeArg key a = .ok { a with parsedValue := a.defaultValue }) ∧
    (isListType a.type = true → a.parsedValue = .strs [] →
      finalizeArg key a = .ok { a with parsedValue := emptyListValue a.type }) := by
  refine ⟨?_, ?_, ?_⟩
  · intro hl hp hr
    unfold finalizeArg
    simp [hl, hp, hr]
  · intro hl hp hr
    unfold finalizeArg
    simp [hl, hp, hr]
  · intro hl hp
    unfold finalizeArg
    rw [hp]
    cases hty : a.type <;> simp [isListType, hty] at hl ⊢ <;>
      simp [coerceValue, convList, emptyListValue, hty]

/-- C7 witness: the required-and-absent conjunct and the mentioned-with-empty-
accumulator conjunct, applied to a required int-list entry. -/
theorem c7_witness :
    finalizeArg "ids"
      { names := ["ids"], shortForms := [], longForms := ["ids"], help := "",
        required := true, type := .IntList, defaultValue := Value.none,
        parsedValue := Value.none, positional := false } =
      .error (.missingArgument ("Missing required list argument: " ++ "ids")) ∧
    finalizeArg "ids"
      { names := ["ids"], shortForms := [], longForms := ["ids"], help := "",
        required := true, type := .IntList, defaultValue := Value.none,
        parsedValue := .strs [], positional := false } =
      .ok { names := ["ids"], shortForms := [], longForms := ["ids"], help := "",
            required := true, type := .IntList, defaultValue := Value.none,
            parsedValue := .ints [], positional := false } := by
  constructor
  · have h := (c7_amended_empty_list "ids"
      { names := ["ids"], shortForms := [], longForms := ["ids"], help := "",
        required := true, type := .IntList, defaultValue := Value.none,
        parsedValue := Value.none, positional := false }).1 rfl rfl rfl
    simpa [displayName] using h
  · have h := (c7_amended_empty_list "ids"
      { names := ["ids"], shortForms := [], longForms := ["ids"], help := "",
        required := true, type := .IntList, defaultValue := Value.none,
        parsedValue := .strs [], positional := false }).2.2 rfl rfl
    simpa [emptyListValue] using h

/-- C3 counterexample: `--5` is of the claimed form — a leading dash followed
by text `std::stof` accepts (`isNegativeNumber "--5"` is true, since
`stof "-5"` succeeds) — yet `parse` classifies it by its `--` prefix as a long
option and raises `UnknownArgument`, never consulting the negative-number
tie-break (argy.hpp line 597 runs before line 617). -/
theorem c3_counterexample :
    isNegativeNumber "--5" = true ∧
    parse fileCountParser ["report.txt", "--5"] =
      .failure (.unknownArgument "Unknown argument: --5") := by
  decide

/-- C3 (amended): every token with a single leading dash (not `--`) whose
remainder `std::stof` accepts is classified as a value: the token loop hands
it to the pending-option/positional branches and never raises
`UnknownArgument` for it; in particular `-5` following a pending int option is
consumed as the integer value `-5`. -/
theorem c3_negative_number_is_value (po : List String) (st : LoopState) (tok : String)
    (hneg : isNegativeNumber tok = true)
    (hnd : startsWith tok "--" = false) :
    processToken po st tok = handleValueToken po st tok ∧
    (∀ msg, processToken po st tok ≠ .error (.unknownArgument msg)) ∧
    ((add emptyCli .Int ["-c", "--count"] "Count" Option.none).map
        (fun p => getResult (parse p ["--count", "-5"]) .rInt "count") =
      .ok (some (.ok (.int (-5))))) := by
  have hstep : processToken po st tok = handleValueToken po st tok := by
    unfold processToken
    rw [if_neg (by simp [hnd])]
    rw [if_neg (by simp [hneg])]
  refine ⟨hstep, ?_, by decide⟩
  intro msg
  rw [hstep]
  unfold handleValueToken
  by_cases hck : st.currentKey ≠ ""
  · rw [if_pos hck]
    cases halk : alookup st.arguments st.currentKey with
    | none => simp
    | some arg =>
      by_cases hl : isListType arg.type = true
      · cases hpv : arg.parsedValue <;> simp [hl, hpv]
      · simp [hl]
  · rw [if_neg hck]
    split
    · dsimp only
      split <;> simp
    · simp

/-- C3 witness: the amended theorem applied to the token `-5` in a loop state
with the int option `count` pending; the token is consumed as a value and the
end-to-end scenario yields `-5`. -/
theorem c3_witness :
    isNegativeNumber "-5" = true ∧
    processToken ["filename"]
        ⟨[("c", countArgParsed)], "c", 0⟩ "-5" =
      handleValueToken ["filename"] ⟨[("c", countArgParsed)], "c", 0⟩ "-5" ∧
    ((add emptyCli .Int ["-c", "--count"] "Count" Option.none).map
        (fun p => getResult (parse p ["--count", "-5"]) .rInt "count") =
      .ok (some (.ok (.int (-5))))) := by
  have h := c3_negative_number_is_value ["filename"]
    ⟨[("c", countArgParsed)], "c", 0⟩ "-5" (by decide) (by decide)
  exact ⟨by decide, h.1, h.2.2⟩

theorem find_contains_some {names cands : List String} {ex : String}
    (hmem : ex ∈ names) (hc : ex ∈ cands) :
    ∃ x, names.find? (fun e => cands.contains e) = some x := by
  induction names with
  | nil => cases hmem
  | cons hd tl ih =>
    by_cases hp : hd ∈ cands
    · exact ⟨hd, by simp [List.find?, hp]⟩
    · rcases List.mem_cons.mp hmem with he | he
      · subst he
        exact absurd hc hp
      · obtain ⟨x, hx⟩ := ih he
        refine ⟨x, ?_⟩
        simp only [List.find?]
        rw [show cands.contains hd = false from by simp [hp]]
        exact hx

theorem findDupName_some {args : List (String × Arg)} {cands : List String}
    {kv : String × Arg} {ex : String}
    (hmem : kv ∈ args) (hex : ex ∈ kv.2.names) (hcand : ex ∈ cands) :
    ∃ x, findDupName args cands = some x := by
  induction args with
  | nil => cases hmem
  | cons hd tl ih =>
    unfold findDupName
    cases hf : hd.2.names.find? (fun existing => cands.contains existing) with
    | some x => exact ⟨x, rfl⟩
    | none =>
      rcases List.mem_cons.mp hmem with he | he
      · subst he
        obtain ⟨x, hx⟩ := find_contains_some hex hcand
        rw [hx] at hf
        cases hf
      · exact ih he

/-- C8: registration keeps alias ownership unambiguous: whenever some alias of
the newly registered argument, after dash normalization, is already claimed by
a previously registered argument, `add` raises `DuplicateArgument` at
declaration time — parse never sees the collision — and, the embedding being
functional, the raising `add` returns no new registry, so the first
registration is left intact.  (The hypotheses scope to declarations that pass
the earlier well-formedness and reserved-name checks, which C++ runs first.) -/
theorem c8_duplicate_alias_rejected (p : CliParser) (ty : ArgType) (names : List String)
    (help : String) (d : Option Value) (c : ClassifiedNames) (kv : String × Arg) (ex : String)
    (hc : classifyNames names = .ok c)
    (hhelp : c.longNames.any (· = "help") = false)
    (hh : c.shortNames.any (· = "h") = false)
    (hmem : kv ∈ p.arguments) (hex : ex ∈ kv.2.names)
    (hcand : ex ∈ c.cleanNames) :
    ∃ msg, add p ty names help d = .error (.duplicateArgument msg) := by
  obtain ⟨x, hx⟩ := findDupName_some hmem hex hcand
  refine ⟨"Duplicate argument name: " ++ x, ?_⟩
  unfold add
  rw [hc]
  simp only [hhelp, hh, Bool.false_eq_true, if_false, hx]

/-- C8 witness: after registering `-c`/`--count`, registering a second
argument with alias `-c` raises `DuplicateArgument`. -/
theorem c8_witness :
    ∃ msg, add fileCountParser .Int ["-c"] "other" Option.none =
      .error (.duplicateArgument msg) := by
  exact c8_duplicate_alias_rejected fileCountParser .Int ["-c"] "other" Option.none
    ⟨["c"], ["c"], [], false⟩
    ("c", { names := ["c", "count"], shortForms := ["c"], longForms := ["count"],
            help := "Count", required := false, type := .Int, defaultValue := .int 10,
            parsedValue := Value.none, positional := false }) "c"
    (by decide) (by decide) (by decide) (by decide) (by decide) (by decide)

theorem startsWith_dashdash_false {s : String} (h : startsWith s "-" = false) :
    startsWith s "--" = false := by
  obtain ⟨data⟩ := s
  cases data with
  | nil => rfl
  | cons ch cs =>
    have hd1 : ("-" : String).data = ['-'] := rfl
    have hd2 : ("--" : String).data = ['-', '-'] := rfl
    unfold startsWith at h ⊢
    rw [hd1] at h
    rw [hd2]
    simp only [startsWithL, Bool.and_true] at h ⊢
    simp [h]

theorem normalizeName_no_dash {s : String} (h : startsWith s "-" = false) :
    normalizeName s = s := by
  unfold normalizeName
  rw [startsWith_dashdash_false h, h]
  rfl

/-- C9 counterexample: registering the dash-less single name `out` together
with the default `"a.txt"` succeeds — no declaration-time error is raised
(argy.hpp lines 441-515 contain no positional-default check) — and creates an
optional positional argument whose `get` yields the default when no token is
supplied.  (The repository's own README states positionals "cannot have
default values", and a test named "Positional argument with default value
throws" now asserts the default is returned.) -/
theorem c9_counterexample :
    (add emptyCli .String ["out"] "Output" (some (.str "a.txt"))).map
        (fun p => ((alookup p.arguments "out").map fun a => (a.positional, a.required),
                   getResult (parse p []) .rString "out")) =
      .ok (some (true, false), some (.ok (.str "a.txt"))) := by
  decide

/-- C9 (amended): in the single-name registration path, a name with no leading
dash makes the argument positional; supplying a default value is accepted, not
rejected — the registration succeeds and creates an optional (non-required)
positional argument carrying that default, appended to the positional order. -/
theorem c9_positional_default_allowed (p : CliParser) (ty : ArgType) (name help : String)
    (d : Value)
    (hnd : startsWith name "-" = false)
    (hres : name ≠ "help")
    (hdup : findDupName p.arguments [name] = Option.none) :
    ∃ p', add p ty [name] help (some d) = .ok p' ∧
      alookup p'.arguments name =
        some { names := [name], shortForms := [], longForms := [name], help := help,
               required := false, type := ty, defaultValue := d, parsedValue := Value.none,
               positional := true } ∧
      p'.positionalOrder = p.positionalOrder ++ [name] := by
  have hdd : startsWith name "--" = false := startsWith_dashdash_false hnd
  have hcls : classifyNames [name] = .ok ⟨[name], [], [name], true⟩ := by
    unfold classifyNames
    rw [hdd, hnd]
    simp [classifyNames, normalizeName_no_dash hnd]
  have h1 : add p ty [name] help (some d) =
      .ok { nameLookup :=
              aupsert (aupsert (aupsert p.nameLookup name name) name name) ("--" ++ name) name,
            arguments := aupsert p.arguments name
              { names := [name], shortForms := [], longForms := [name], help := help,
                required := false, type := ty, defaultValue := d, parsedValue := Value.none,
                positional := true },
            positionalOrder := p.positionalOrder ++ [name] } := by
    unfold add
    rw [hcls]
    simp [hres, hdup]
  refine ⟨_, h1, ?_, rfl⟩
  rw [alookup_aupsert_self]

/-- C9 witness: the amended theorem applied to the dash-less name `out` with
default `"a.txt"` on the empty registry. -/
theorem c9_witness :
    ∃ p', add emptyCli .String ["out"] "Output" (some (.str "a.txt")) = .ok p' ∧
      alookup p'.arguments "out" =
        some { names := ["out"], shortForms := [], longForms := ["out"], help := "Output",
               required := false, type := .String, defaultValue := .str "a.txt",
               parsedValue := Value.none, positional := true } ∧
      p'.positionalOrder = emptyCli.positionalOrder ++ ["out"] := by
  exact c9_positional_default_allowed emptyCli .String "out" "Output" (.str "a.txt")
    (by decide) (by decide) (by decide)

/-- Registry with only the optional int option `-c`/`--count`, default `10`. -/
def countOnlyParser : CliParser :=
  match add emptyCli .Int ["-c", "--count"] "Count" (some (.int 10)) with
  | .ok p => p
  | .error _ => emptyCli

/-- That registry parsed on an empty command line. -/
def countOnlyParsed : CliParser := extractSuccess (parse countOnlyParser [])

/-- C6 counterexample: the optional `--count` (default `10`) is absent from the
empty command line, yet after `parse` the default has been substituted into
`parsedValue` (argy.hpp line 664), so `has("count")` returns `true`, not
`false`. -/
theorem c6_counterexample :
    (alookup countOnlyParser.arguments "c").map (fun a => a.defaultValue) =
      some (.int 10) ∧
    hasResult (parse countOnlyParser []) "count" = some true ∧
    hasResult (parse countOnlyParser []) "--count" = some true := by
  decide

/-- C6 (amended): `has` reflects post-default-substitution presence.  After a
successful `parse`, any argument declared with a (non-absent) default value
reports `has(name) == true` through every alias, whether or not it was
supplied on the command line: finalization replaces an absent parsed value by
the default, and `has` inspects the substituted value. -/
theorem c6_has_post_default_substitution (p p' : CliParser) (argv : List String)
    (name key : String) (arg : Arg)
    (hnodup : keysNodup p.arguments)
    (hparse : parse p argv = .success p')
    (hl : alookup p.nameLookup (normalizeName name) = some key)
    (ha : alookup p.arguments key = some arg)
    (hd : arg.defaultValue ≠ Value.none) :
    has p' name = true := by
  unfold parse at hparse
  by_cases hhelp : (argv.any fun a => a = "--help" || a = "-h") = true
  · rw [if_pos hhelp] at hparse
    cases hparse
  · rw [if_neg hhelp] at hparse
    cases hloop : parseLoop p.positionalOrder ⟨p.arguments, "", 0⟩ argv with
    | error e =>
      simp only [hloop] at hparse
      cases hparse
    | ok st =>
      simp only [hloop] at hparse
      cases hfin : finalizeAll st.arguments with
      | error e =>
        simp only [hfin] at hparse
        cases hparse
      | ok args' =>
        simp only [hfin, ParseOutcome.success.injEq] at hparse
        subst hparse
        have hdecl : declProj st.arguments = declProj p.arguments :=
          declProj_parseLoop hnodup hloop
        obtain ⟨argMid, haMid, _, _, hdMid, _⟩ := alookup_declProj hdecl ha
        obtain ⟨a', ha', hfa⟩ := finalizeAll_alookup hfin haMid
        have hne : a'.parsedValue ≠ Value.none :=
          finalizeArg_default_present hfa (hdMid ▸ hd)
        simp only [has, hl, ha']
        simp [hne]

/-- C6 witness: the amended theorem applied to the parsed empty command line
of the `--count` registry. -/
theorem c6_witness : has countOnlyParsed "count" = true := by
  exact c6_has_post_default_substitution countOnlyParser countOnlyParsed [] "count" "c"
    { names := ["c", "count"], shortForms := ["c"], longForms := ["count"], help := "Count",
      required := false, type := .Int, defaultValue := .int 10, parsedValue := Value.none,
      positional := false }
    (by decide) (by decide) (by decide) (by decide) (by decide)

theorem parseLoop_singleton (po : List String) (st : LoopState) (t : String) :
    parseLoop po st [t] = processToken po st t := by
  cases h : processToken po st t with
  | error e => simp [parseLoop, h]
  | ok st' => simp [parseLoop, h]

/-- C10: when the final token of the input names a scalar non-bool option, so
a value is pending when the stream ends, the whole parse behaves exactly as if
that dangling token were absent: the step only sets `currentKey`, which
finalization never reads — so no distinct missing-value error exists, and the
entry is settled by the ordinary finalization rule, which assigns the stored
default to an absent optional argument and raises `MissingArgument` for an
absent required one. -/
theorem c10_dangling_option_ignored (p : CliParser) (argv : List String) (tok k : String)
    (arg : Arg)
    (hnodup : keysNodup p.arguments)
    (hnh1 : tok ≠ "--help") (hnh2 : tok ≠ "-h")
    (hcase :
      (startsWith tok "--" = true ∧
        findEntry p.arguments (namesMatchLong (substrFrom tok 2)) = some (k, arg)) ∨
      (startsWith tok "--" = false ∧
        (startsWith tok "-" && decide (strLen tok > 1) && !isNegativeNumber tok) = true ∧
        findEntry p.arguments (namesMatchShort (substrFrom tok 1)) = some (k, arg)))
    (hnl : isListType arg.type = false) (hnb : arg.type ≠ .Bool) :
    parse p (argv ++ [tok]) = parse p argv ∧
    (∀ key a, isListType a.type = false → a.parsedValue = Value.none →
      finalizeArg key a =
        if a.required then
          .error (.missingArgument ("Missing required argument: " ++ displayName key a))
        else .ok { a with parsedValue := a.defaultValue }) := by
  constructor
  · unfold parse
    have hscan : ((argv ++ [tok]).any fun a => a = "--help" || a = "-h") =
        (argv.any fun a => a = "--help" || a = "-h") := by
      simp [List.any_append, hnh1, hnh2]
    rw [hscan]
    by_cases hhelp : (argv.any fun a => a = "--help" || a = "-h") = true
    · rw [if_pos hhelp, if_pos hhelp]
    · rw [if_neg hhelp, if_neg hhelp]
      rw [parseLoop_append]
      cases hloop : parseLoop p.positionalOrder ⟨p.arguments, "", 0⟩ argv with
      | error e => rfl
      | ok st =>
        dsimp only
        have hdecl : declProj st.arguments = declProj p.arguments :=
          declProj_parseLoop hnodup hloop
        rw [parseLoop_singleton]
        have hstep : processToken p.positionalOrder st tok = .ok { st with currentKey := k } := by
          rcases hcase with ⟨hsw, hfind⟩ | ⟨hsw, hcond, hfind⟩
          · have hfe := findEntry_declProj (namesMatchLong (substrFrom tok 2)) hdecl
            rw [hfind] at hfe
            cases hf2 : findEntry st.arguments (namesMatchLong (substrFrom tok 2)) with
            | none => rw [hf2] at hfe; simp at hfe
            | some kv2 =>
              obtain ⟨k2, arg2⟩ := kv2
              rw [hf2] at hfe
              simp only [Option.map_some'] at hfe
              have h3 := Option.some.inj hfe
              have hk2 : k2 = k := congrArg Prod.fst h3
              have ht2 : arg2.type = arg.type := congrArg (fun t => t.2.2) h3
              unfold processToken
              rw [if_pos hsw]
              dsimp only
              rw [hf2]
              dsimp only
              rw [if_neg (by rw [ht2, hnl]; simp), if_neg (by rw [ht2]; exact hnb)]
              rw [hk2]
          · have hfe := findEntry_declProj (namesMatchShort (substrFrom tok 1)) hdecl
            rw [hfind] at hfe
            cases hf2 : findEntry st.arguments (namesMatchShort (substrFrom tok 1)) with
            | none => rw [hf2] at hfe; simp at hfe
            | some kv2 =>
              obtain ⟨k2, arg2⟩ := kv2
              rw [hf2] at hfe
              simp only [Option.map_some'] at hfe
              have h3 := Option.some.inj hfe
              have hk2 : k2 = k := congrArg Prod.fst h3
              have ht2 : arg2.type = arg.type := congrArg (fun t => t.2.2) h3
              unfold processToken
              rw [if_neg (by rw [hsw]; simp), if_pos hcond]
              dsimp only
              rw [hf2]
              dsimp only
              rw [if_neg (by rw [ht2, hnl]; simp), if_neg (by rw [ht2]; exact hnb)]
              rw [hk2]
        rw [hstep]
  · intro key a hla hpa
    unfold finalizeArg
    have hc1 : (!isListType a.type && decide (a.parsedValue = Value.none)) = true := by
      simp [hla, hpa]
    rw [hc1, if_pos rfl]

/-- C10 witness: the equivalence applied to the dangling final token
`--count`, together with the two concrete finalization outcomes: the optional
variant receives its default `10` and the required variant raises
`MissingArgument`. -/
theorem c10_witness :
    parse countOnlyParser ["--count"] = parse countOnlyParser [] ∧
    getResult (parse countOnlyParser ["--count"]) .rInt "count" = some (.ok (.int 10)) ∧
    parse intScalarParser ["--num"] =
      .failure (.missingArgument "Missing required argument: num") := by
  refine ⟨?_, by decide, by decide⟩
  exact (c10_dangling_option_ignored countOnlyParser [] "--count" "c"
    { names := ["c", "count"], shortForms := ["c"], longForms := ["count"], help := "Count",
      required := false, type := .Int, defaultValue := .int 10, parsedValue := Value.none,
      positional := false }
    (by decide) (by decide) (by decide)
    (Or.inl ⟨by decide, by decide⟩) (by decide) (by decide)).1

end Argy
